import Mathlib

/-!
Verification development for the rgpt conversation page-tree.

Shallow embedding of the core of the `rgpt` repository:
`crates/types/src/message.rs`, `crates/types/src/completion.rs`,
`crates/assistant/src/pagetree.rs`, `crates/assistant/src/session.rs`
and `crates/assistant/src/textarea.rs`.

Machine integers: `NodeId` wraps a `u16`; we model it with `Nat` and take
`% 65536` exactly where the Rust code casts (`self.nodes.len() as u16`)
or does `u16` arithmetic (`height + 1`).

The text-editing backend (`tui_textarea::TextArea`, an external crate not
part of this repository) is modelled as a list of lines with the cursor
pinned at the end of the buffer, which is the only way this codebase
drives it (append-only per-character input).  The visual activation
styling (`set_cursor_style`/`set_block`) is modelled as a single boolean
`styleActive`.
-/

namespace Rgpt

/-- `rgpt_types::message::Role`. -/
inductive Role where
  | user
  | assistant
  | system
deriving DecidableEq

/-- `rgpt_types::message::Message`. -/
structure Message where
  role : Role
  content : String
deriving DecidableEq

/-- `SessionAreaId` from `session.rs`. -/
inductive SessionAreaId where
  | user
  | assistant
  | system
deriving DecidableEq

/-- `impl From<SessionAreaId> for Role`. -/
def SessionAreaId.toRole : SessionAreaId → Role
  | .user => .user
  | .assistant => .assistant
  | .system => .system

/-- `impl From<Role> for SessionAreaId`. -/
def Role.toAreaId : Role → SessionAreaId
  | .user => .user
  | .assistant => .assistant
  | .system => .system

/-- `tui_textarea::Input`: the code only ever inspects `input.key`, so we
model an input as its key.  Keys not handled specially by the wrappers
(arrows, mouse, etc.) are collapsed into `other`. -/
inductive Input where
  | char (c : Char)
  | enter
  | backspace
  | delete
  | tab
  | other
deriving DecidableEq

/-- Model of the external `tui_textarea::TextArea` widget: its text lines
plus the activation styling flag set by `activate`/`inactivate`
(`set_cursor_style(REVERSED)` vs default).  The cursor is pinned at the
end of the buffer, matching every use in this codebase. -/
structure TextArea where
  lines : List String
  styleActive : Bool
deriving DecidableEq

/-- `TextArea::default()`: a single empty line. -/
def TextArea.default0 : TextArea := { lines := [""], styleActive := false }

/-- Drop the last character of a string. -/
def strDropLast (s : String) : String := String.mk s.toList.dropLast

/-- Replace the last element of a list of lines (append a fresh line when
the list is empty, which does not occur for a real `TextArea`). -/
def setLastLine (ls : List String) (f : String → String) : List String :=
  match ls.reverse with
  | [] => [f ""]
  | x :: rest => (f x :: rest).reverse

/-- Editing semantics of the external widget at an end-of-buffer cursor. -/
def taInput (i : Input) (ta : TextArea) : TextArea :=
  match i with
  | .char c => { ta with lines := setLastLine ta.lines (fun s => s.push c) }
  | .enter => { ta with lines := ta.lines ++ [""] }
  | .tab => { ta with lines := setLastLine ta.lines (fun s => s.push '\t') }
  | .backspace =>
      match ta.lines.reverse with
      | [] => ta
      | x :: rest =>
          if x = "" then
            match rest with
            | [] => ta
            | _ => { ta with lines := rest.reverse }
          else { ta with lines := (strDropLast x :: rest).reverse }
  | .delete => ta
  | .other => ta

/-- `char_to_input` from `session.rs` / `textarea.rs`: `'\n'` becomes an
Enter key, anything else a plain character key. -/
def charToInput (c : Char) : Input :=
  if c = '\n' then .enter else .char c

/-- `string_to_inputs`. -/
def stringToInputs (s : String) : List Input :=
  s.toList.map charToInput

/-- `SessionTextArea` from `session.rs` (the buffer type actually used by
the page tree; it has no lock). -/
structure SessionTextArea where
  id : SessionAreaId
  text_area : TextArea
  max_line_length : Nat
deriving DecidableEq

namespace SessionTextArea

/-- `SessionTextArea::input` from `session.rs`: soft-wrap before a
printable character when the current last line would reach
`max_line_length`, then feed the key to the widget. -/
def input (a : SessionTextArea) (i : Input) : SessionTextArea :=
  match i with
  | .char c =>
      let len := ((a.text_area.lines.getLast?).getD "").length
      let ta := if len + 1 ≥ a.max_line_length then taInput .enter a.text_area else a.text_area
      { a with text_area := taInput (.char c) ta }
  | k => { a with text_area := taInput k a.text_area }

/-- `SessionTextArea::activate` (styling only). -/
def activate (a : SessionTextArea) : SessionTextArea :=
  { a with text_area := { a.text_area with styleActive := true } }

/-- `SessionTextArea::inactivate` (styling only). -/
def inactivate (a : SessionTextArea) : SessionTextArea :=
  { a with text_area := { a.text_area with styleActive := false } }

/-- `SessionTextArea::clear` from `session.rs`: a fresh default widget,
then `inactivate`. -/
def clear (a : SessionTextArea) : SessionTextArea :=
  { a with text_area := TextArea.default0 }

/-- `SessionTextArea::is_empty`. -/
def is_empty (a : SessionTextArea) : Bool :=
  a.text_area.lines.isEmpty ||
    (a.text_area.lines.length = 1 &&
      (((a.text_area.lines.getD 0 "") = "") || ((a.text_area.lines.getD 0 "") = "\n")))

/-- `SessionTextArea::message`: `None` when empty, otherwise the lines
joined with newlines, tagged with the area's role. -/
def message (a : SessionTextArea) : Option Message :=
  if a.is_empty then none
  else some { role := a.id.toRole, content := String.intercalate "\n" a.text_area.lines }

/-- `SessionTextArea::new`: feed the joined seed lines character by
character, append a final Enter when the seed is non-empty, and start
inactive. -/
def new (id : SessionAreaId) (lines : List String) (max_line_length : Nat) : SessionTextArea :=
  let s : SessionTextArea :=
    { id := id, text_area := TextArea.default0, max_line_length := max_line_length }
  let s :=
    if lines.isEmpty then s
    else
      let s := (stringToInputs (String.intercalate "\n" lines)).foldl SessionTextArea.input s
      s.input .enter
  s.inactivate

end SessionTextArea

/-- `impl From<&SessionTextArea> for Message`: unconditional conversion,
no emptiness check (used for the system message on submission). -/
def messageFromArea (a : SessionTextArea) : Message :=
  { role := a.id.toRole, content := String.intercalate "\n" a.text_area.lines }

/-! ## The page tree (`pagetree.rs`) -/

/-- `NodeId`: `Root` sentinel or a `u16` arena index.  The index is a
`Nat` here; it is always produced as `len % 65536`, the image of the
`as u16` cast. -/
inductive NodeId where
  | root
  | node (i : Nat)
deriving DecidableEq

/-- `Node` from `pagetree.rs`. -/
structure Node where
  id : NodeId
  user_area : SessionTextArea
  assistant_area : SessionTextArea
  children : List NodeId
  parent : NodeId
  height : Nat
  active : Option SessionAreaId
deriving DecidableEq

/-- `Node::new`: fresh empty buffers of width 70 (the literal used by
`Node::new`), no children, inactive. -/
def Node.new (id parent : NodeId) (height : Nat) : Node :=
  { id := id
    user_area := SessionTextArea.new .user [] 70
    assistant_area := SessionTextArea.new .assistant [] 70
    children := []
    parent := parent
    height := height
    active := none }

/-- `Node::area_mut` restricted to the two real areas; the `System` arm
panics in Rust and is never reached (`Node::activate` guards it), we
model it as the identity. -/
def Node.areaModify (n : Node) (id : SessionAreaId) (f : SessionTextArea → SessionTextArea) :
    Node :=
  match id with
  | .user => { n with user_area := f n.user_area }
  | .assistant => { n with assistant_area := f n.assistant_area }
  | .system => n

/-- `Node::activate`. -/
def Node.activate (n : Node) (area : SessionAreaId) : Node :=
  let n :=
    match n.active with
    | some a => n.areaModify a SessionTextArea.inactivate
    | none => n
  if area = .system then { n with active := none }
  else { (n.areaModify area SessionTextArea.activate) with active := some area }

/-- `Node::inactivate`. -/
def Node.inactivate (n : Node) : Node :=
  { n with assistant_area := n.assistant_area.inactivate
           user_area := n.user_area.inactivate
           active := none }

/-- `Node::messages`: an assistant-then-user pair when both buffers are
non-empty, the user message alone when only it is non-empty, and nothing
otherwise (in particular nothing when only the assistant buffer is
non-empty). -/
def Node.messages (n : Node) : List Message :=
  match n.user_area.message, n.assistant_area.message with
  | some user, some assistant => [assistant, user]
  | some user, none => [user]
  | _, _ => []

/-- `Root` from `pagetree.rs`: the arena, the active pointer, the shared
system buffer and the top-level children. -/
structure Root where
  nodes : List Node
  active : NodeId
  system_area : SessionTextArea
  children : List NodeId
deriving DecidableEq

/-- Update the element at index `i` (identity when out of range; the Rust
code only ever reaches the in-range case, out of range would panic). -/
def listModify {α : Type} : List α → Nat → (α → α) → List α
  | [], _, _ => []
  | x :: xs, 0, f => f x :: xs
  | x :: xs, i + 1, f => x :: listModify xs i f

namespace Root

/-- `Root::new`. -/
def new : Root :=
  { nodes := []
    active := .root
    system_area := SessionTextArea.new .system [] 70
    children := [] }

/-- `Root::get`. -/
def get (r : Root) (id : NodeId) : Option Node :=
  match id with
  | .root => none
  | .node i => r.nodes[i]?

/-- Functional counterpart of `Root::get_mut` followed by a mutation. -/
def modifyNode (r : Root) (id : NodeId) (f : Node → Node) : Root :=
  match id with
  | .root => r
  | .node i => { r with nodes := listModify r.nodes i f }

/-- `Root::height`: 0 for the root sentinel, the stored height otherwise
(the Rust code indexes the arena directly and would panic out of range;
we return 0 there, and all theorems stay in range). -/
def height (r : Root) (id : NodeId) : Nat :=
  match id with
  | .root => 0
  | .node i => ((r.nodes[i]?).map Node.height).getD 0

/-- `Root::next_id`: the arena length cast to `u16`. -/
def next_id (r : Root) : NodeId :=
  .node (r.nodes.length % 65536)

/-- `Root::insert_child`: allocate the node (height = parent height + 1,
in `u16` arithmetic), push it onto the arena, and record it in the
parent's children list (the top-level list for the root sentinel). -/
def insert_child (r : Root) (parent : NodeId) : NodeId × Root :=
  let id := r.next_id
  let n := Node.new id parent ((r.height parent + 1) % 65536)
  let r1 : Root := { r with nodes := r.nodes ++ [n] }
  match parent with
  | .root => (id, { r1 with children := r1.children ++ [id] })
  | .node p =>
      (id, { r1 with
             nodes := listModify r1.nodes p (fun m => { m with children := m.children ++ [id] }) })

/-- `Root::insert_child` keeping only the tree. -/
def insertChildT (r : Root) (parent : NodeId) : Root :=
  (r.insert_child parent).2

/-- `Root::parent`. -/
def parent (r : Root) (id : NodeId) : Option Node :=
  (r.get id).bind (fun n => r.get n.parent)

/-- `Root::siblings`. -/
def siblings (r : Root) (id : NodeId) : List NodeId :=
  match r.parent id with
  | some p => p.children
  | none => r.children

/-- `iter().skip_while(|&&s| s != id).nth(1)`: the entry after the first
occurrence of `id`. -/
def afterFirst (l : List NodeId) (id : NodeId) : Option NodeId :=
  (l.dropWhile (fun s => s ≠ id))[1]?

/-- `Root::next_sibling` (cyclic). -/
def next_sibling (r : Root) (id : NodeId) : Option Node :=
  match afterFirst (r.siblings id) id with
  | some j => r.get j
  | none => (r.siblings id).head?.bind r.get

/-- `Root::previous_sibling` (cyclic). -/
def previous_sibling (r : Root) (id : NodeId) : Option Node :=
  match afterFirst (r.siblings id).reverse id with
  | some j => r.get j
  | none => (r.siblings id).getLast?.bind r.get

/-- `Root::children`: the child nodes of `id` (empty for the root
sentinel, since `get(Root)` is `None`). -/
def childNodes (r : Root) (id : NodeId) : List Node :=
  ((r.get id).map (fun n => n.children.filterMap r.get)).getD []

/-- `Root::get_node_messages`: the system message for the root sentinel,
the node's message pair otherwise. -/
def get_node_messages (r : Root) (id : NodeId) : List Message :=
  match id with
  | .root => r.system_area.message.toList
  | .node _ => ((r.get id).map Node.messages).getD []

/-- The collection loop of `Root::collect_messages`: `fuel` iterations of
"extend with this node's messages, move to the parent". -/
def collectGo (r : Root) (id : NodeId) (fuel : Nat) : List Message :=
  match fuel with
  | 0 => []
  | fuel + 1 =>
      r.get_node_messages id ++ collectGo r (((r.get id).map Node.parent).getD .root) fuel

/-- `Root::collect_messages`: walk `height(id) - down_to` steps up the
parent chain collecting messages, reverse into chronological order, and
drop the last message when it is an assistant message. -/
def collect_messages (r : Root) (id : NodeId) (down_to : Option Nat) : List Message :=
  let d := down_to.getD 0
  let ms := (collectGo r id (r.height id - d)).reverse
  if (ms.getLast?).map Message.role = some Role.assistant then ms.dropLast else ms

/-- The first two statements of `Root::activate`: deactivate the
previously active node (resetting the active pointer to the root
sentinel) and dim the system buffer. -/
def deactivatePrev (r : Root) : Root :=
  let r :=
    match r.get r.active with
    | some _ => { r.modifyNode r.active Node.inactivate with active := NodeId.root }
    | none => r
  { r with system_area := r.system_area.inactivate }

/-- `Root::activate`.  Run the deactivation prelude, then dispatch on the
requested area exactly as the source does; for `Assistant` the fallback
goes to the parent node (one level, with no emptiness test on the
parent's buffer). -/
def activate (r : Root) (id : NodeId) (area : SessionAreaId) : Root :=
  let r := r.deactivatePrev
  match area with
  | .system => { r with system_area := r.system_area.activate }
  | .assistant =>
      let attempt : Option Root :=
        match r.get id with
        | some n =>
            if n.assistant_area.is_empty then none
            else some { r.modifyNode id (fun m => m.activate .assistant) with active := id }
        | none => none
      match attempt with
      | some r' => r'
      | none =>
          -- `parent_mut` re-looks the parent up through its `id` field;
          -- the whole fallback is skipped when that second lookup fails.
          match r.parent id with
          | some pn =>
              match r.get pn.id with
              | some pn' =>
                  { r.modifyNode pn.id (fun m => m.activate .assistant) with active := pn'.id }
              | none => r
          | none => r
  | .user =>
      match r.get id with
      | some _ => { r.modifyNode id (fun m => m.activate .user) with active := id }
      | none => r

/-- The recursive `inner` of `Root::insert_text_areas`.  The Rust stack
is a `Vec` popped from its end; `stack` here lists the areas in pop
order.  The mutated tree is returned alongside the result, matching the
`&mut self` discipline (on error the nodes inserted so far remain). -/
def insertGo (r : Root) (parent : Option NodeId) (stack : List SessionTextArea) :
    Root × Except String NodeId :=
  match stack with
  | [] => (r, .ok (parent.getD .root))
  | a1 :: rest =>
      let p := parent.getD .root
      let (child, r) := r.insert_child p
      if a1.id ≠ .user then (r, .error "invalid area id")
      else
        let r := r.modifyNode child (fun n => { n with user_area := a1 })
        match rest with
        | [] => (r, .ok child)
        | a2 :: rest2 =>
            if a2.id ≠ .assistant then (r, .error "invalid area id")
            else
              insertGo (r.modifyNode child (fun n => { n with assistant_area := a2 }))
                (some child) rest2

/-- `Root::insert_text_areas`: copy the first `System` area (if any) into
the shared system buffer, then `reverse()` the vector and `pop()` it once
— which discards the **first** area of the original sequence — and run
`inner` on the rest.  `l.reverse.dropLast.reverse` is the reversed-popped
stack read back in pop order. -/
def insert_text_areas (r : Root) (parent : Option NodeId) (areas : List SessionTextArea) :
    Root × Except String NodeId :=
  let r :=
    match areas.find? (fun a => a.id = SessionAreaId.system) with
    | some sa => { r with system_area := sa }
    | none => r
  insertGo r parent ((areas.reverse.dropLast).reverse)

end Root

/-! ## Streaming events (`rgpt_types::completion`) -/

/-- `ContentBlock`. -/
inductive ContentBlock where
  | text (s : String)
  | other
deriving DecidableEq

/-- `ContentBlock::text`. -/
def ContentBlock.textOf : ContentBlock → Option String
  | .text s => some s
  | .other => none

/-- `ContentDelta`. -/
inductive ContentDelta where
  | textDelta (s : String)
  | other
deriving DecidableEq

/-- `ContentDelta::text`. -/
def ContentDelta.textOf : ContentDelta → Option String
  | .textDelta s => some s
  | .other => none

/-- `TextEvent`.  `MessageStart`'s payload and `MessageDelta`'s payload
are never read by the session handler (matched with `{ .. }`), so they
are not carried here. -/
inductive TextEvent where
  | null
  | messageStart
  | contentBlockStart (index : Nat) (content_block : ContentBlock)
  | contentBlockDelta (index : Nat) (delta : ContentDelta)
  | contentBlockStop (index : Nat)
  | messageDelta
  | messageStop
deriving DecidableEq

/-! ## The session controller (`session.rs`) -/

/-- `SessionLayout`. -/
structure SessionLayout where
  page_tree : Root
  current_node : NodeId
  active : SessionAreaId
  assistant_stream_node : Option NodeId
  max_line_length : Nat
deriving DecidableEq

namespace SessionLayout

/-- `SessionLayout::activate`: activate `(current_node, id)` in the tree
and record the active area. -/
def activate (l : SessionLayout) (id : SessionAreaId) : SessionLayout :=
  { l with page_tree := l.page_tree.activate l.current_node id, active := id }

/-- `SessionLayout::switch_node`. -/
def switch_node (l : SessionLayout) (n : NodeId) : SessionLayout :=
  ({ l with current_node := n }).activate l.active

/-- `SessionLayout::input`: route an input to the active area of the
current node (or the system buffer). -/
def input (l : SessionLayout) (i : Input) : SessionLayout :=
  match l.active with
  | .system => { l with page_tree :=
      { l.page_tree with system_area := l.page_tree.system_area.input i } }
  | a => { l with page_tree :=
      l.page_tree.modifyNode l.current_node (fun n => n.areaModify a (fun ar => ar.input i)) }

/-- `SessionLayout::up_one`: move to the first child, if any. -/
def up_one (l : SessionLayout) : SessionLayout × Option NodeId :=
  match (l.page_tree.childNodes l.current_node).head? with
  | some n => (l.switch_node n.id, some n.id)
  | none => (l, none)

/-- `SessionLayout::down_one`: move to the parent, if any. -/
def down_one (l : SessionLayout) : SessionLayout × Option NodeId :=
  match l.page_tree.parent l.current_node with
  | some n => (l.switch_node n.id, some n.id)
  | none => (l, none)

/-- `SessionLayout::next_branch`. -/
def next_branch (l : SessionLayout) : SessionLayout × Option NodeId :=
  match l.page_tree.next_sibling l.current_node with
  | some n => (l.switch_node n.id, some n.id)
  | none => (l, none)

/-- `SessionLayout::previous_branch`. -/
def previous_branch (l : SessionLayout) : SessionLayout × Option NodeId :=
  match l.page_tree.previous_sibling l.current_node with
  | some n => (l.switch_node n.id, some n.id)
  | none => (l, none)

/-- `SessionLayout::new_child`: insert a child under `node` and switch to
it. -/
def new_child (l : SessionLayout) (node : NodeId) : SessionLayout :=
  let (id, tree) := l.page_tree.insert_child node
  ({ l with page_tree := tree }).switch_node id

/-- `SessionLayout::messages`: the system buffer converted unconditionally
(`Message::from`), followed by the linearization from the current node. -/
def messages (l : SessionLayout) : List Message :=
  messageFromArea l.page_tree.system_area :: l.page_tree.collect_messages l.current_node none

/-- The state effect of the Ctrl+j submission arm of `SessionInner::run`:
collect the messages (handed to the assistant facade, returned here as
the first component), record the current node as the stream target, then
create and switch to a new child of the current node. -/
def submit (l : SessionLayout) : List Message × SessionLayout :=
  let ms := l.messages
  let l := { l with assistant_stream_node := some l.current_node }
  (ms, l.new_child l.current_node)

/-- The node whose assistant buffer receives stream events: the recorded
`assistant_stream_node` when set, else the current node (this is the
`if let Some(node) ... else current_node_area_mut(Assistant)` split in
`handle_assistant_event`). -/
def streamTarget (l : SessionLayout) : NodeId :=
  l.assistant_stream_node.getD l.current_node

/-- Apply `f` to the stream target's assistant buffer. -/
def modifyAssistantArea (l : SessionLayout) (f : SessionTextArea → SessionTextArea) :
    SessionLayout :=
  { l with page_tree :=
      l.page_tree.modifyNode l.streamTarget (fun n => { n with assistant_area := f n.assistant_area }) }

/-- `string_to_inputs` + the per-character `area.input` loop used for
`ContentBlockStart`/`ContentBlockDelta` payloads. -/
def applyText (s : String) (a : SessionTextArea) : SessionTextArea :=
  (stringToInputs s).foldl SessionTextArea.input a

/-- `SessionLayout::handle_assistant_event`. -/
def handle_assistant_event (l : SessionLayout) (ev : TextEvent) : SessionLayout :=
  match ev with
  | .null => l
  | .messageStart => l.modifyAssistantArea SessionTextArea.clear
  | .contentBlockStart _ cb => l.modifyAssistantArea (applyText (cb.textOf.getD ""))
  | .contentBlockDelta _ d => l.modifyAssistantArea (applyText (d.textOf.getD ""))
  | .contentBlockStop _ => l
  | .messageDelta => l
  | .messageStop => { l with assistant_stream_node := none }

end SessionLayout

/-! ## The locked buffer variant (`textarea.rs`)

The `textarea` module's `SessionTextArea` carries a `locked` flag and a
`title`; its `input` returns a `bool` and rejects content-mutating keys
while locked, and `force_input` clears the lock, applies the input, and
re-locks.  (The page tree uses the `session.rs` variant above, which has
no lock.) -/

namespace Textarea

/-- `SessionTextArea` from `textarea.rs`. -/
structure SessionTextArea where
  id : SessionAreaId
  title : String
  text_area : TextArea
  locked : Bool
  max_line_length : Nat
deriving DecidableEq

/-- Content-mutating keys: the ones `input` rejects while locked. -/
def isMutating : Input → Bool
  | .char _ => true
  | .backspace => true
  | .delete => true
  | .enter => true
  | .tab => true
  | .other => false

namespace SessionTextArea

/-- `SessionTextArea::input` from `textarea.rs`: reject content-mutating
keys while locked (returning `false` with the buffer untouched), apply
the soft-wrap rule before printable characters, and return `true` in
every other case. -/
def input (a : SessionTextArea) (i : Input) : SessionTextArea × Bool :=
  match i with
  | .char c =>
      if a.locked then (a, false)
      else
        let len := ((a.text_area.lines.getLast?).getD "").length
        let ta := if len + 1 ≥ a.max_line_length then taInput .enter a.text_area else a.text_area
        ({ a with text_area := taInput (.char c) ta }, true)
  | .backspace | .delete | .enter | .tab =>
      if a.locked then (a, false)
      else ({ a with text_area := taInput i a.text_area }, true)
  | .other => ({ a with text_area := taInput .other a.text_area }, true)

/-- `SessionTextArea::force_input`: unlock, apply, re-lock. -/
def force_input (a : SessionTextArea) (i : Input) : SessionTextArea :=
  let a := { a with locked := false }
  let a := (a.input i).1
  { a with locked := true }

end SessionTextArea

end Textarea

/-! ## Concrete fixtures used by the theorems -/

/-- A user area seeded with one line, width 100 (as in the repository's
`test_collect_messages`, which maps `content.lines()` of messages ending
in `"\n"` to a single seed line). -/
def areaUser (s : String) : SessionTextArea := SessionTextArea.new .user [s] 100

/-- An assistant area seeded with one line, width 100. -/
def areaAssistant (s : String) : SessionTextArea := SessionTextArea.new .assistant [s] 100

/-- A system area seeded with one line, width 100. -/
def areaSystem (s : String) : SessionTextArea := SessionTextArea.new .system [s] 100

/-- Overwrite a node's user buffer (the `child_node.user_area = ...`
assignment of `insert_text_areas`, used to build small fixtures). -/
def setUserArea (r : Root) (id : NodeId) (s : String) : Root :=
  r.modifyNode id (fun n => { n with user_area := areaUser s })

/-- Overwrite a node's assistant buffer. -/
def setAssistantArea (r : Root) (id : NodeId) (s : String) : Root :=
  r.modifyNode id (fun n => { n with assistant_area := areaAssistant s })

/-- The message-area list of the repository's `test_collect_messages`
(five messages, `User`/`Assistant` alternating, starting AND ending with
`User`, no `System` message). -/
def testCollectAreas : List SessionTextArea :=
  [areaUser "User message", areaAssistant "Assistant message",
   areaUser "Another User message", areaAssistant "Another Assistant message",
   areaUser "A last User message"]

/-- The area list of the repository's `test_insert_text_areas`: three
empty areas `User`, `Assistant`, `User` of width 70. -/
def testInsertAreas : List SessionTextArea :=
  [SessionTextArea.new .user [] 70, SessionTextArea.new .assistant [] 70,
   SessionTextArea.new .user [] 70]

/-- A locked `textarea.rs` buffer holding the line `ab`. -/
def lockedArea : Textarea.SessionTextArea :=
  { id := .user
    title := "temp"
    text_area := { lines := ["ab"], styleActive := false }
    locked := true
    max_line_length := 70 }

/-- A three-node chain root→n0→n1→n2 with all six buffers filled
(`u1`/`a1`, `u2`/`a2`, `u3`/`a3`). -/
def chain3 : Root :=
  let r := Root.new
  let s0 := r.insert_child .root
  let r := setAssistantArea (setUserArea s0.2 s0.1 "u1") s0.1 "a1"
  let s1 := r.insert_child s0.1
  let r := setAssistantArea (setUserArea s1.2 s1.1 "u2") s1.1 "a2"
  let s2 := r.insert_child s1.1
  setAssistantArea (setUserArea s2.2 s2.1 "u3") s2.1 "a3"

/-- The same chain with the deepest node's assistant buffer left empty. -/
def chain3e : Root :=
  let r := Root.new
  let s0 := r.insert_child .root
  let r := setAssistantArea (setUserArea s0.2 s0.1 "u1") s0.1 "a1"
  let s1 := r.insert_child s0.1
  let r := setAssistantArea (setUserArea s1.2 s1.1 "u2") s1.1 "a2"
  let s2 := r.insert_child s1.1
  setUserArea s2.2 s2.1 "u3"

/-- A three-node chain where only the top node (n0) has a non-empty
assistant buffer; n1 and n2 have empty assistant buffers. -/
def chainAct : Root :=
  let r := Root.new
  let s0 := r.insert_child .root
  let r := setAssistantArea s0.2 s0.1 "top reply"
  let s1 := r.insert_child s0.1
  (s1.2.insert_child s1.1).2

/-- A two-level tree: parent n0 with non-empty assistant buffer, child n1
with an empty one (the spec's verification scenario for activation
fallback). -/
def twoLevel : Root :=
  let r := Root.new
  let s0 := r.insert_child .root
  let r := setAssistantArea s0.2 s0.1 "parent reply"
  (r.insert_child s0.1).2

/-- A single top-level node with empty buffers. -/
def oneTop : Root := (Root.new.insert_child .root).2

/-- A two-node chain whose deep node n1 has an empty user buffer but a
non-empty assistant buffer (`orphan reply`). -/
def chainEU : Root :=
  let r := Root.new
  let s0 := r.insert_child .root
  let r := setAssistantArea (setUserArea s0.2 s0.1 "u1") s0.1 "a1"
  let s1 := r.insert_child s0.1
  setAssistantArea s1.2 s1.1 "orphan reply"

/-- A session layout whose single node n0 holds user text `hello`, with
node n0 current and the user area active. -/
def lay0 : SessionLayout :=
  { page_tree := setUserArea oneTop (NodeId.node 0) "hello"
    current_node := NodeId.node 0
    active := .user
    assistant_stream_node := none
    max_line_length := 70 }

/-- `lay0` with node n0 recorded as the assistant stream target. -/
def layStream : SessionLayout := { lay0 with assistant_stream_node := some (NodeId.node 0) }

/-! ## Specification-side definitions -/

/-- The node ids visited by the collection loop of `collect_messages`:
`fuel` steps up the parent chain starting at `id`. -/
def pathIds (r : Root) (id : NodeId) : Nat → List NodeId
  | 0 => []
  | fuel + 1 => id :: pathIds r (((r.get id).map Node.parent).getD .root) fuel

/-- Drop the final message when it has the `Assistant` role (the
trailing-assistant rule of `collect_messages`). -/
def stripTrailingAssistant (ms : List Message) : List Message :=
  if (ms.getLast?).map Message.role = some Role.assistant then ms.dropLast else ms

/-- Well-tagged buffers: every arena node's user buffer is tagged `User`
and its assistant buffer `Assistant`, and the system buffer is tagged
`System`.  Every tree the code builds satisfies this. -/
def wellAreas (r : Root) : Prop :=
  (∀ n ∈ r.nodes, n.user_area.id = SessionAreaId.user ∧
      n.assistant_area.id = SessionAreaId.assistant) ∧
    r.system_area.id = SessionAreaId.system

/-- Two adjacent chronological messages are never both assistant
messages. -/
def notBothAssistant (x y : Message) : Prop :=
  ¬(x.role = Role.assistant ∧ y.role = Role.assistant)

/-- A sequence of `insert_child` calls, given by the parent chosen at
each step. -/
def applyInserts (ps : List NodeId) (r : Root) : Root :=
  ps.foldl Root.insertChildT r

/-- A parent argument that `insert_child` can index without panicking. -/
def parentOkB (r : Root) (p : NodeId) : Bool :=
  match p with
  | .root => true
  | .node i => i < r.nodes.length

/-- Every call of the sequence addresses a parent that exists at the time
of the call. -/
def validSeq (r : Root) : List NodeId → Bool
  | [] => true
  | p :: ps => parentOkB r p && validSeq (r.insertChildT p) ps

/-- `n` successive `insert_child(Root)` calls on a fresh tree. -/
def insertRootN : Nat → Root
  | 0 => Root.new
  | n + 1 => (insertRootN n).insertChildT .root

/-- Every entry of every children list (the top-level list counting as
the root sentinel's). -/
def allChildren (r : Root) : List NodeId :=
  r.children ++ r.nodes.flatMap Node.children

/-- Claim C6's first clause: every node's height is its parent's height
plus one (root height 0). -/
def heightsConsistent (r : Root) : Prop :=
  ∀ (i : Nat) (n : Node), r.nodes[i]? = some n → n.height = r.height n.parent + 1

/-- Claim C6's second clause: every id referenced in a children list is a
valid arena index. -/
def childrenIndicesValid (r : Root) : Prop :=
  ∀ id ∈ allChildren r, ∃ j, id = NodeId.node j ∧ j < r.nodes.length

/-- Claim C6's third clause: every node id appears in exactly one
parent's children list (exactly once overall). -/
def childrenUnique (r : Root) : Prop :=
  ∀ j, j < r.nodes.length → (allChildren r).count (NodeId.node j) = 1

/-- Node ids as assigned by `insert_child` with the `u16` cast: the node
stored at index `i` carries id `i % 65536`.  This holds for every
`insert_child` sequence, wrap or no wrap. -/
def IdModOk (r : Root) : Prop :=
  ∀ (i : Nat) (n : Node), r.nodes[i]? = some n → n.id = NodeId.node (i % 65536)

/-- The inductive invariant carried across `insert_child` sequences that
stay under the `u16` wrap (arena length at most 65535). -/
structure TreeInv (r : Root) : Prop where
  idOk : ∀ (i : Nat) (n : Node), r.nodes[i]? = some n → n.id = NodeId.node i
  parentLt : ∀ (i : Nat) (n : Node), r.nodes[i]? = some n →
    n.parent = NodeId.root ∨ ∃ p, n.parent = NodeId.node p ∧ p < i
  heightOk : heightsConsistent r
  heightLe : ∀ (i : Nat) (n : Node), r.nodes[i]? = some n → n.height ≤ i + 1
  childOk : childrenIndicesValid r
  countOk : childrenUnique r

/-! ## Basic lemmas about the embedding -/

theorem listModify_length {α : Type} (l : List α) (i : Nat) (f : α → α) :
    (listModify l i f).length = l.length := by
  induction l generalizing i with
  | nil => rfl
  | cons x xs ih =>
      cases i with
      | zero => rfl
      | succ n => simp [listModify, ih]

theorem listModify_getElem?_self {α : Type} (l : List α) (i : Nat) (f : α → α) :
    (listModify l i f)[i]? = (l[i]?).map f := by
  induction l generalizing i with
  | nil => simp [listModify]
  | cons x xs ih =>
      cases i with
      | zero => simp [listModify]
      | succ n => simpa [listModify] using ih n

theorem listModify_getElem?_ne {α : Type} (l : List α) (i j : Nat) (f : α → α) (h : i ≠ j) :
    (listModify l i f)[j]? = l[j]? := by
  induction l generalizing i j with
  | nil => rfl
  | cons x xs ih =>
      cases i with
      | zero =>
          cases j with
          | zero => exact absurd rfl h
          | succ m => simp [listModify]
      | succ n =>
          cases j with
          | zero => simp [listModify]
          | succ m => simpa [listModify] using ih n m (by omega)

theorem Root.get_modifyNode (r : Root) (id m : NodeId) (f : Node → Node) :
    (r.modifyNode id f).get m = if id = m then (r.get m).map f else r.get m := by
  cases id with
  | root =>
      cases m with
      | root => simp [Root.modifyNode, Root.get]
      | node j => simp [Root.modifyNode, Root.get]
  | node i =>
      cases m with
      | root => simp [Root.modifyNode, Root.get]
      | node j =>
          by_cases hij : i = j
          · subst hij
            simp [Root.modifyNode, Root.get, listModify_getElem?_self]
          · simp [Root.modifyNode, Root.get, listModify_getElem?_ne _ _ _ _ hij, hij]

theorem Root.modifyNode_nodes_length (r : Root) (id : NodeId) (f : Node → Node) :
    (r.modifyNode id f).nodes.length = r.nodes.length := by
  cases id with
  | root => rfl
  | node i => simp [Root.modifyNode, listModify_length]

theorem Root.modifyNode_system_area (r : Root) (id : NodeId) (f : Node → Node) :
    (r.modifyNode id f).system_area = r.system_area := by
  cases id <;> rfl

theorem Root.modifyNode_children (r : Root) (id : NodeId) (f : Node → Node) :
    (r.modifyNode id f).children = r.children := by
  cases id <;> rfl

theorem Root.modifyNode_active (r : Root) (id : NodeId) (f : Node → Node) :
    (r.modifyNode id f).active = r.active := by
  cases id <;> rfl

theorem SessionTextArea.inactivate_is_empty (a : SessionTextArea) :
    a.inactivate.is_empty = a.is_empty := rfl

theorem SessionTextArea.activate_is_empty (a : SessionTextArea) :
    a.activate.is_empty = a.is_empty := rfl

theorem Node.areaModify_parent (n : Node) (a : SessionAreaId) (f : SessionTextArea → SessionTextArea) :
    (n.areaModify a f).parent = n.parent := by cases a <;> rfl

theorem Node.areaModify_id (n : Node) (a : SessionAreaId) (f : SessionTextArea → SessionTextArea) :
    (n.areaModify a f).id = n.id := by cases a <;> rfl

theorem Node.areaModify_height (n : Node) (a : SessionAreaId) (f : SessionTextArea → SessionTextArea) :
    (n.areaModify a f).height = n.height := by cases a <;> rfl

theorem Node.areaModify_children (n : Node) (a : SessionAreaId) (f : SessionTextArea → SessionTextArea) :
    (n.areaModify a f).children = n.children := by cases a <;> rfl

theorem Node.activate_parent (n : Node) (a : SessionAreaId) :
    (n.activate a).parent = n.parent := by
  unfold Node.activate
  cases h : n.active <;> by_cases ha : a = SessionAreaId.system <;>
    simp [ha, Node.areaModify_parent]

theorem Node.activate_id (n : Node) (a : SessionAreaId) :
    (n.activate a).id = n.id := by
  unfold Node.activate
  cases h : n.active <;> by_cases ha : a = SessionAreaId.system <;>
    simp [ha, Node.areaModify_id]

theorem Node.activate_height (n : Node) (a : SessionAreaId) :
    (n.activate a).height = n.height := by
  unfold Node.activate
  cases h : n.active <;> by_cases ha : a = SessionAreaId.system <;>
    simp [ha, Node.areaModify_height]

theorem Node.activate_children (n : Node) (a : SessionAreaId) :
    (n.activate a).children = n.children := by
  unfold Node.activate
  cases h : n.active <;> by_cases ha : a = SessionAreaId.system <;>
    simp [ha, Node.areaModify_children]

theorem Node.inactivate_parent (n : Node) : n.inactivate.parent = n.parent := rfl

theorem Node.inactivate_id (n : Node) : n.inactivate.id = n.id := rfl

theorem Node.inactivate_height (n : Node) : n.inactivate.height = n.height := rfl

theorem Node.inactivate_children (n : Node) : n.inactivate.children = n.children := rfl

theorem Node.activate_assistant_active (n : Node) :
    (n.activate .assistant).active = some SessionAreaId.assistant := by
  unfold Node.activate
  cases h : n.active <;> simp

theorem Node.activate_assistant_style (n : Node) :
    (n.activate .assistant).assistant_area.text_area.styleActive = true := by
  unfold Node.activate
  cases h : n.active with
  | none => simp [Node.areaModify, SessionTextArea.activate]
  | some a => cases a <;> simp [Node.areaModify, SessionTextArea.activate,
      SessionTextArea.inactivate]

theorem Node.activate_assistant_is_empty (n : Node) :
    (n.activate .assistant).assistant_area.is_empty = n.assistant_area.is_empty := by
  unfold Node.activate
  cases h : n.active with
  | none => simp [Node.areaModify, SessionTextArea.activate, SessionTextArea.is_empty]
  | some a => cases a <;> simp [Node.areaModify, SessionTextArea.activate,
      SessionTextArea.inactivate, SessionTextArea.is_empty]

/-! ## C1: round-trip of bulk insertion and linearization -/

/-- C1: the claimed round trip fails on the code.  `insert_text_areas`
reverses the area vector and then pops once, which unconditionally drops
the **first** area of the original sequence.  On the repository's own
`test_collect_messages` sequence (five alternating messages starting with
`User`, optional `System` absent), the first `User` area is discarded and
the following `Assistant` area then fails the `User`-first validation, so
the whole insertion returns `Err("invalid area id")` instead of building
the chain whose linearization would reproduce the messages (the test
`unwrap`s this very result). -/
theorem insert_text_areas_no_system_errors :
    (Root.new.insert_text_areas none testCollectAreas).2 = Except.error "invalid area id" := by
  rfl

/-! ## C7: validation-error boundary of insert_text_areas -/

/-- C7: the claimed "Err exactly on broken alternation" boundary fails on
the code.  `test_insert_text_areas`'s own input `[User, Assistant, User]`
satisfies the claimed alternation (first content message `User`, then an
optional `Assistant`), and the repository's test asserts `is_ok`, yet the
implementation drops the leading `User` area (reverse-then-pop) and then
rejects the now-leading `Assistant` area with `Err("invalid area id")`. -/
theorem insert_text_areas_valid_alternation_errors :
    (Root.new.insert_text_areas none testInsertAreas).2 = Except.error "invalid area id" := by
  rfl

/-! ## C2: collect_messages -/

theorem message_role (a : SessionTextArea) (m : Message) (h : a.message = some m) :
    m.role = a.id.toRole := by
  unfold SessionTextArea.message at h
  split at h
  · exact absurd h (by simp)
  · cases h; rfl

theorem node_messages_block (r : Root) (hw : wellAreas r) (id : NodeId) :
    List.Chain' notBothAssistant (r.get_node_messages id) ∧
      ∀ x ∈ (r.get_node_messages id).getLast?, x.role ≠ Role.assistant := by
  match id with
  | .root =>
      unfold Root.get_node_messages
      cases h : r.system_area.message with
      | none => simp
      | some m =>
          have hr := message_role _ _ h
          rw [hw.2] at hr
          simp only [Option.toList_some]
          refine ⟨by simp, ?_⟩
          intro x hx
          simp only [List.getLast?_singleton, Option.mem_def, Option.some.injEq] at hx
          subst hx
          rw [hr]
          simp [SessionAreaId.toRole]
  | .node i =>
      unfold Root.get_node_messages
      cases hg : r.get (NodeId.node i) with
      | none => simp
      | some n =>
          have hmem : n ∈ r.nodes := List.getElem?_mem hg
          have hids := hw.1 n hmem
          simp only [Option.map_some', Option.getD_some]
          unfold Node.messages
          cases hu : n.user_area.message with
          | none => cases ha : n.assistant_area.message <;> simp
          | some u =>
              have hur : u.role = Role.user := by
                have := message_role _ _ hu
                rw [hids.1] at this
                simpa [SessionAreaId.toRole] using this
              cases ha : n.assistant_area.message with
              | none =>
                  refine ⟨by simp, ?_⟩
                  intro x hx
                  simp only [List.getLast?_singleton, Option.mem_def, Option.some.injEq] at hx
                  subst hx
                  simp [hur]
              | some a =>
                  refine ⟨?_, ?_⟩
                  · refine List.chain'_cons.mpr ⟨?_, by simp⟩
                    intro hc
                    rw [hur] at hc
                    exact absurd hc.2 (by simp)
                  · intro x hx
                    have : (([a, u] : List Message).getLast?) = some u := rfl
                    rw [this] at hx
                    simp only [Option.mem_def, Option.some.injEq] at hx
                    subst hx
                    simp [hur]

theorem collectGo_chain (r : Root) (hw : wellAreas r) (id : NodeId) (fuel : Nat) :
    List.Chain' notBothAssistant (Root.collectGo r id fuel) ∧
      ∀ x ∈ (Root.collectGo r id fuel).getLast?, x.role ≠ Role.assistant := by
  induction fuel generalizing id with
  | zero => simp [Root.collectGo]
  | succ fuel ih =>
      have hblock := node_messages_block r hw id
      have hrest := ih (((r.get id).map Node.parent).getD .root)
      unfold Root.collectGo
      constructor
      · refine List.chain'_append.mpr ⟨hblock.1, hrest.1, ?_⟩
        intro x hx y _
        intro hc
        exact absurd hc.1 (hblock.2 x hx)
      · intro x hx
        rw [List.getLast?_append] at hx
        cases hr : (Root.collectGo r (((r.get id).map Node.parent).getD .root) fuel).getLast? with
        | some y =>
            rw [hr] at hx
            simp only [Option.or_some, Option.mem_def, Option.some.injEq] at hx
            exact hx ▸ hrest.2 y (by rw [hr]; rfl)
        | none =>
            rw [hr] at hx
            simp only [Option.none_or] at hx
            exact hblock.2 x hx

theorem dropLast_reverse_eq_tail_reverse {α : Type} (l : List α) :
    l.reverse.dropLast = l.tail.reverse := by
  cases l with
  | nil => rfl
  | cons x xs => simp [List.reverse_cons, List.dropLast_concat]

theorem pathIds_flatMap (r : Root) (id : NodeId) (fuel : Nat) :
    Root.collectGo r id fuel = (pathIds r id fuel).flatMap r.get_node_messages := by
  induction fuel generalizing id with
  | zero => rfl
  | succ fuel ih => simp [Root.collectGo, pathIds, List.flatMap_cons, ih]

theorem strip_reverse_last_not_assistant (raw : List Message)
    (hchain : List.Chain' notBothAssistant raw) :
    ((stripTrailingAssistant raw.reverse).getLast?).map Message.role ≠ some Role.assistant := by
  unfold stripTrailingAssistant
  by_cases hcond : (raw.reverse.getLast?).map Message.role = some Role.assistant
  · rw [if_pos hcond, dropLast_reverse_eq_tail_reverse, List.getLast?_reverse]
    rw [List.getLast?_reverse] at hcond
    cases raw with
    | nil => simp at hcond
    | cons x t =>
        have hx : x.role = Role.assistant := by simpa using hcond
        cases t with
        | nil => simp
        | cons y t2 =>
            have hR : notBothAssistant x y := (List.chain'_cons.mp hchain).1
            have hy : y.role ≠ Role.assistant := fun h => hR ⟨hx, h⟩
            simpa using hy
  · rw [if_neg hcond]
    exact hcond

/-- C2 counterexample: the claimed count is wrong.  On a three-node chain
of filled User/Assistant pairs, `collect_messages(grandchild, None)`
yields 5 messages, not 6 — the chronologically last message is the
grandchild's Assistant message and the trailing-assistant rule (stated in
the very same claim) removes it. -/
theorem collect_three_chain_not_six :
    ¬((chain3.collect_messages (NodeId.node 2) none).length = 6) := by
  decide

/-- C2 (amended): `collect_messages(id, down_to)` flat-maps the node
messages along the parent path from `id` (of length `height(id) -
down_to`, default `down_to = 0`), reverses into chronological order, and
drops the last message when its role is Assistant; consequently (for any
tree with well-tagged buffers) the result never ends in an Assistant
message; and a three-node chain of filled User/Assistant pairs yields
exactly **5** messages in chronological order with content preserved
verbatim — likewise 5 (the same list) when the deepest node's assistant
buffer is empty. -/
theorem collect_messages_spec :
    (∀ (r : Root) (id : NodeId) (d : Option Nat),
        r.collect_messages id d =
          stripTrailingAssistant
            (((pathIds r id (r.height id - d.getD 0)).flatMap r.get_node_messages).reverse)) ∧
    (∀ (r : Root) (id : NodeId) (d : Option Nat), wellAreas r →
        ((r.collect_messages id d).getLast?).map Message.role ≠ some Role.assistant) ∧
    chain3.collect_messages (NodeId.node 2) none =
      [⟨Role.user, "u1\n"⟩, ⟨Role.assistant, "a1\n"⟩, ⟨Role.user, "u2\n"⟩,
       ⟨Role.assistant, "a2\n"⟩, ⟨Role.user, "u3\n"⟩] ∧
    chain3e.collect_messages (NodeId.node 2) none =
      [⟨Role.user, "u1\n"⟩, ⟨Role.assistant, "a1\n"⟩, ⟨Role.user, "u2\n"⟩,
       ⟨Role.assistant, "a2\n"⟩, ⟨Role.user, "u3\n"⟩] := by
  refine ⟨?_, ?_, by rfl, by rfl⟩
  · intro r id d
    show stripTrailingAssistant ((Root.collectGo r id (r.height id - d.getD 0)).reverse) = _
    rw [pathIds_flatMap]
  · intro r id d hw
    exact strip_reverse_last_not_assistant _ (collectGo_chain r hw id (r.height id - d.getD 0)).1

/-- Witness for C2's amended theorem: its general conjunct applied to the
concrete three-node chain. -/
theorem collect_messages_spec_witness :
    wellAreas chain3 ∧
      ((chain3.collect_messages (NodeId.node 2) none).getLast?).map Message.role ≠
        some Role.assistant := by
  have hw : wellAreas chain3 := by
    unfold wellAreas
    exact ⟨by decide, by decide⟩
  exact ⟨hw, collect_messages_spec.2.1 chain3 (NodeId.node 2) none hw⟩

/-! ## C5: activation fallback for empty assistant buffers -/

theorem Node.inactivate_assistant_is_empty (n : Node) :
    n.inactivate.assistant_area.is_empty = n.assistant_area.is_empty := rfl

theorem Root.get_mk_fields (r : Root) (a : NodeId) (sa : SessionTextArea) (m : NodeId) :
    (Root.mk r.nodes a sa r.children).get m = r.get m := by
  cases m <;> rfl

theorem Root.deactivatePrev_get (r : Root) (m : NodeId) :
    r.deactivatePrev.get m =
      if r.active = m then (r.get m).map Node.inactivate else r.get m := by
  unfold Root.deactivatePrev
  cases hact : r.get r.active with
  | some a0 =>
      dsimp only
      rw [Root.get_mk_fields, Root.get_modifyNode]
  | none =>
      dsimp only
      rw [Root.get_mk_fields]
      by_cases hm : r.active = m
      · subst hm
        rw [hact]
        simp
      · simp [hm]

theorem Root.deactivatePrev_get_idmap (r : Root) (m : NodeId) :
    (r.deactivatePrev.get m).map Node.id = (r.get m).map Node.id := by
  rw [Root.deactivatePrev_get]
  by_cases h : r.active = m
  · rw [if_pos h]
    cases r.get m <;> simp [Node.inactivate_id]
  · rw [if_neg h]

theorem Root.deactivatePrev_parent_idmap (r : Root) (id : NodeId) :
    (r.deactivatePrev.parent id).map Node.id = (r.parent id).map Node.id := by
  unfold Root.parent
  rw [Root.deactivatePrev_get]
  by_cases h : r.active = id
  · rw [if_pos h]
    cases hg : r.get id with
    | none => simp
    | some nd =>
        simp only [Option.map_some', Option.some_bind, Node.inactivate_parent]
        exact Root.deactivatePrev_get_idmap r nd.parent
  · rw [if_neg h]
    cases hg : r.get id with
    | none => simp
    | some nd =>
        simp only [Option.some_bind]
        exact Root.deactivatePrev_get_idmap r nd.parent


/-- C5 counterexample: the fallback is one level only, not "nearest
non-empty ancestor".  On a three-node chain whose top node n0 has the
only non-empty assistant buffer, activating `Assistant` on the leaf n2
activates the **parent** n1's (empty) assistant buffer and sets the
active pointer to n1 — not to n0 as the claim requires. -/
theorem activate_assistant_skips_nonempty_ancestor :
    (chainAct.activate (NodeId.node 2) .assistant).active = NodeId.node 1 ∧
    ((chainAct.activate (NodeId.node 2) .assistant).get (NodeId.node 1)).map
      (fun n => n.assistant_area.is_empty) = some true ∧
    ((chainAct.get (NodeId.node 0)).map (fun n => n.assistant_area.is_empty)) = some false := by
  exact ⟨by rfl, by rfl, by rfl⟩

/-- C5 (amended): activating `Assistant` on a node with a non-empty
assistant buffer activates that buffer and points `active` at the node;
on a node with an empty assistant buffer it activates the **parent**
node's assistant buffer (one level up, regardless of whether the parent's
buffer is non-empty) and points `active` at the parent's id — which on
the spec's two-level scenario (child empty, parent non-empty) is the
parent, as claimed; when no parent exists, no buffer is activated and the
tree is left exactly as the deactivation prelude leaves it. -/
theorem activate_assistant_fallback (r : Root) (id : NodeId)
    (hidOk : ∀ (i : Nat) (h : i < r.nodes.length), (r.nodes.get ⟨i, h⟩).id = NodeId.node i) :
    (((r.get id).map fun n => n.assistant_area.is_empty) = some false →
        (r.activate id .assistant).active = id ∧
        ∃ n', (r.activate id .assistant).get id = some n' ∧
          n'.active = some SessionAreaId.assistant ∧
          n'.assistant_area.text_area.styleActive = true) ∧
    (((r.get id).map fun n => n.assistant_area.is_empty) = some true →
        (∀ pid, (r.parent id).map Node.id = some pid →
            (r.activate id .assistant).active = pid ∧
            ∃ p', (r.activate id .assistant).get pid = some p' ∧
              p'.active = some SessionAreaId.assistant ∧
              p'.assistant_area.text_area.styleActive = true) ∧
        (r.parent id = none → r.activate id .assistant = r.deactivatePrev)) := by
  constructor
  · intro hne
    obtain ⟨nd, hid, hnd⟩ : ∃ nd, r.get id = some nd ∧ nd.assistant_area.is_empty = false := by
      cases hg : r.get id with
      | none => rw [hg] at hne; simp at hne
      | some nd => rw [hg] at hne; exact ⟨nd, rfl, by simpa using hne⟩
    have hRid : r.deactivatePrev.get id = some (if r.active = id then nd.inactivate else nd) := by
      rw [Root.deactivatePrev_get]
      by_cases h : r.active = id <;> simp [h, hid]
    have hRemp : (if r.active = id then nd.inactivate else nd).assistant_area.is_empty = false := by
      by_cases h : r.active = id <;> simp [h, Node.inactivate_assistant_is_empty, hnd]
    unfold Root.activate
    dsimp only
    rw [hRid]
    dsimp only
    rw [hRemp]
    simp only [Bool.false_eq_true, if_false]
    refine ⟨trivial, ?_⟩
    rw [Root.get_mk_fields, Root.get_modifyNode, if_pos rfl, hRid]
    exact ⟨_, rfl, Node.activate_assistant_active _, Node.activate_assistant_style _⟩
  · intro hemp
    obtain ⟨nd, hid, hnd⟩ : ∃ nd, r.get id = some nd ∧ nd.assistant_area.is_empty = true := by
      cases hg : r.get id with
      | none => rw [hg] at hemp; simp at hemp
      | some nd => rw [hg] at hemp; exact ⟨nd, rfl, by simpa using hemp⟩
    have hRid : r.deactivatePrev.get id = some (if r.active = id then nd.inactivate else nd) := by
      rw [Root.deactivatePrev_get]
      by_cases h : r.active = id <;> simp [h, hid]
    have hRemp : (if r.active = id then nd.inactivate else nd).assistant_area.is_empty = true := by
      by_cases h : r.active = id <;> simp [h, Node.inactivate_assistant_is_empty, hnd]
    constructor
    · intro pid hpid
      obtain ⟨pn, hpn, hpnid⟩ : ∃ pn, r.parent id = some pn ∧ pn.id = pid := by
        cases hp : r.parent id with
        | none => rw [hp] at hpid; simp at hpid
        | some pn => rw [hp] at hpid; exact ⟨pn, rfl, by simpa using hpid⟩
      have hgp : r.get pn.id = some pn := by
        unfold Root.parent at hpn
        rw [hid] at hpn
        simp only [Option.some_bind] at hpn
        cases hpar : nd.parent with
        | root => rw [hpar] at hpn; exact absurd hpn (by simp [Root.get])
        | node p =>
            rw [hpar] at hpn
            have hpn' : r.nodes[p]? = some pn := by simpa [Root.get] using hpn
            obtain ⟨hplen, hget⟩ := List.getElem?_eq_some.mp hpn'
            have hidp := hidOk p hplen
            rw [List.get_eq_getElem, hget] at hidp
            rw [hidp]
            simpa [Root.get] using hpn'
      have hRpar := Root.deactivatePrev_parent_idmap r id
      rw [hpn] at hRpar
      obtain ⟨pn2, hRp, hpn2id⟩ :
          ∃ pn2, r.deactivatePrev.parent id = some pn2 ∧ pn2.id = pn.id := by
        cases hx : r.deactivatePrev.parent id with
        | none => rw [hx] at hRpar; simp at hRpar
        | some y => rw [hx] at hRpar; exact ⟨y, rfl, by simpa using hRpar⟩
      have hRgp : r.deactivatePrev.get pn2.id =
          some (if r.active = pn2.id then pn.inactivate else pn) := by
        rw [Root.deactivatePrev_get, hpn2id]
        by_cases h : r.active = pn.id <;> simp [h, hgp]
      unfold Root.activate
      dsimp only
      rw [hRid]
      dsimp only
      rw [hRemp]
      rw [if_pos rfl]
      dsimp only
      rw [hRp]
      dsimp only
      rw [hRgp]
      dsimp only
      have hifid : (if r.active = pn2.id then pn.inactivate else pn).id = pn.id := by
        by_cases h : r.active = pn2.id
        · rw [if_pos h]; exact Node.inactivate_id pn
        · rw [if_neg h]
      constructor
      · show (if r.active = pn2.id then pn.inactivate else pn).id = pid
        rw [hifid]
        exact hpnid
      · rw [Root.get_mk_fields, ← hpnid, ← hpn2id, Root.get_modifyNode, if_pos rfl, hRgp]
        exact ⟨_, rfl, Node.activate_assistant_active _, Node.activate_assistant_style _⟩
    · intro hp
      have hRpar := Root.deactivatePrev_parent_idmap r id
      rw [hp] at hRpar
      have hRp : r.deactivatePrev.parent id = none := by
        cases hx : r.deactivatePrev.parent id with
        | none => rfl
        | some y => rw [hx] at hRpar; simp at hRpar
      unfold Root.activate
      dsimp only
      rw [hRid]
      dsimp only
      rw [hRemp]
      rw [if_pos rfl]
      dsimp only
      rw [hRp]

/-- Witness for C5's amended theorem: the spec's two-level scenario. -/
theorem activate_assistant_fallback_witness :
    ((twoLevel.get (NodeId.node 1)).map fun n => n.assistant_area.is_empty) = some true ∧
    (twoLevel.parent (NodeId.node 1)).map Node.id = some (NodeId.node 0) ∧
    (twoLevel.activate (NodeId.node 1) .assistant).active = NodeId.node 0 := by
  refine ⟨by decide, by decide, ?_⟩
  exact (((activate_assistant_fallback twoLevel (NodeId.node 1) (by decide)).2
    (by decide)).1 (NodeId.node 0) (by decide)).1


/-! ## C9: empty user buffer suppresses the node's assistant message -/

/-- C9: `Node::messages` returns the empty list whenever the node's user
buffer is empty, even when its assistant buffer is non-empty; hence
`get_node_messages` yields nothing for such a node and `collect_messages`
silently omits its assistant content — concretely, on a two-node chain
whose deep node has an empty user buffer and assistant text
`orphan reply`, the linearization contains only the shallow node's user
message (the orphan assistant text is dropped, and with it the shallow
assistant message, which becomes trailing). -/
theorem empty_user_suppresses_assistant :
    (∀ (n : Node), n.user_area.is_empty = true → n.messages = []) ∧
    (∀ (r : Root) (i : Nat),
        ((r.get (NodeId.node i)).all fun n => n.user_area.is_empty) = true →
        r.get_node_messages (NodeId.node i) = []) ∧
    chainEU.collect_messages (NodeId.node 1) none = [⟨Role.user, "u1\n"⟩] := by
  have h1 : ∀ (n : Node), n.user_area.is_empty = true → n.messages = [] := by
    intro n hu
    have hm : n.user_area.message = none := by
      unfold SessionTextArea.message
      rw [hu]
      simp
    unfold Node.messages
    rw [hm]
  refine ⟨h1, ?_, by rfl⟩
  intro r i hall
  unfold Root.get_node_messages
  cases hg : r.get (NodeId.node i) with
  | none => simp
  | some n =>
      rw [hg] at hall
      simp only [Option.all_some] at hall
      simp [h1 n hall]

/-- Witness for C9: the deep node of `chainEU`. -/
theorem empty_user_suppresses_assistant_witness :
    ((chainEU.get (NodeId.node 1)).all fun n => n.user_area.is_empty) = true ∧
    chainEU.get_node_messages (NodeId.node 1) = [] :=
  ⟨by decide, empty_user_suppresses_assistant.2.1 chainEU 1 (by decide)⟩


/-! ## C8: lock gating in textarea.rs -/

/-- C8: for the `textarea.rs` buffer, a locked buffer rejects every
content-mutating input (character, backspace, delete, enter, tab):
`input` returns `false` and leaves the buffer (content included)
untouched; `input` returns `true` in every other case (unlocked buffer,
or a non-mutating key even while locked); and `force_input` applies the
same operation to a locked buffer by temporarily clearing the lock — its
content effect equals `input` on the unlocked buffer (for a character:
the soft-wrap rule then the insertion), and the buffer ends re-locked. -/
theorem locked_input_spec :
    ∀ (a : Textarea.SessionTextArea) (i : Input),
      (a.locked = true → Textarea.isMutating i = true →
          a.input i = (a, false) ∧
          (a.force_input i).locked = true ∧
          (a.force_input i).text_area = (({ a with locked := false }).input i).1.text_area) ∧
      (a.locked = false ∨ Textarea.isMutating i = false → (a.input i).2 = true) ∧
      (∀ c, i = Input.char c → a.locked = true →
          (a.force_input i).text_area =
            taInput (.char c)
              (if ((a.text_area.lines.getLast?).getD "").length + 1 ≥ a.max_line_length
               then taInput .enter a.text_area else a.text_area)) := by
  intro a i
  refine ⟨?_, ?_, ?_⟩
  · intro hl hm
    cases i <;> simp_all [Textarea.SessionTextArea.input, Textarea.SessionTextArea.force_input,
      Textarea.isMutating]
  · intro h
    rcases h with h | h
    · cases i <;> simp_all [Textarea.SessionTextArea.input]
    · cases i <;> simp_all [Textarea.isMutating, Textarea.SessionTextArea.input]
  · rintro c rfl hl
    simp [Textarea.SessionTextArea.force_input, Textarea.SessionTextArea.input]

/-- Witness for C8: a locked buffer and the character `x`. -/
theorem locked_input_spec_witness :
    lockedArea.locked = true ∧ Textarea.isMutating (Input.char 'x') = true ∧
      lockedArea.input (Input.char 'x') = (lockedArea, false) :=
  ⟨rfl, rfl, ((locked_input_spec lockedArea (Input.char 'x')).1 rfl rfl).1⟩


/-! ## C3: stream event application -/

/-- C3: `handle_assistant_event` applies every event to the node recorded
in `assistant_stream_node` when set, and to the current node otherwise:
`MessageStart` resets that node's assistant buffer to a fresh empty
widget; `ContentBlockStart`/`ContentBlockDelta` convert the event's text
payload into per-character inputs and fold them into that buffer (the
session buffer type carries no lock, so the per-character application is
never blocked); `Null`, `ContentBlockStop` and `MessageDelta` leave the
whole state untouched; `MessageStop` only resets `assistant_stream_node`
to `None`; no other node, the system buffer, the current-node pointer or
the stream recording (except by `MessageStop`) is ever changed. -/
theorem handle_assistant_event_spec :
    ∀ (l : SessionLayout) (n : NodeId),
      (l.assistant_stream_node = some n ∨
        (l.assistant_stream_node = none ∧ n = l.current_node)) →
      (l.handle_assistant_event .null = l) ∧
      ((l.handle_assistant_event .messageStart).page_tree.get n =
          (l.page_tree.get n).map fun nd =>
            { nd with assistant_area := nd.assistant_area.clear }) ∧
      (∀ idx cb, (l.handle_assistant_event (.contentBlockStart idx cb)).page_tree.get n =
          (l.page_tree.get n).map fun nd =>
            { nd with assistant_area :=
                SessionLayout.applyText (cb.textOf.getD "") nd.assistant_area }) ∧
      (∀ idx d, (l.handle_assistant_event (.contentBlockDelta idx d)).page_tree.get n =
          (l.page_tree.get n).map fun nd =>
            { nd with assistant_area :=
                SessionLayout.applyText (d.textOf.getD "") nd.assistant_area }) ∧
      (∀ idx, l.handle_assistant_event (.contentBlockStop idx) = l) ∧
      (l.handle_assistant_event .messageDelta = l) ∧
      (l.handle_assistant_event .messageStop = { l with assistant_stream_node := none }) ∧
      (∀ ev m, m ≠ n → (l.handle_assistant_event ev).page_tree.get m = l.page_tree.get m) ∧
      (∀ ev, (l.handle_assistant_event ev).current_node = l.current_node ∧
          (l.handle_assistant_event ev).page_tree.system_area = l.page_tree.system_area ∧
          (l.handle_assistant_event ev).max_line_length = l.max_line_length) ∧
      (∀ ev, ev ≠ TextEvent.messageStop →
          (l.handle_assistant_event ev).assistant_stream_node = l.assistant_stream_node) := by
  intro l n h
  have ht : l.streamTarget = n := by
    rcases h with h | ⟨h1, h2⟩
    · simp [SessionLayout.streamTarget, h]
    · simp [SessionLayout.streamTarget, h1, h2]
  refine ⟨rfl, ?_, ?_, ?_, fun idx => rfl, rfl, rfl, ?_, ?_, ?_⟩
  · show (l.page_tree.modifyNode l.streamTarget _).get n = _
    rw [ht, Root.get_modifyNode, if_pos rfl]
  · intro idx cb
    show (l.page_tree.modifyNode l.streamTarget _).get n = _
    rw [ht, Root.get_modifyNode, if_pos rfl]
  · intro idx d
    show (l.page_tree.modifyNode l.streamTarget _).get n = _
    rw [ht, Root.get_modifyNode, if_pos rfl]
  · intro ev m hm
    cases ev <;>
      first
        | rfl
        | (show (l.page_tree.modifyNode l.streamTarget _).get m = _
           rw [ht, Root.get_modifyNode, if_neg (fun hc => hm hc.symm)])
  · intro ev
    cases ev <;>
      refine ⟨rfl, ?_, rfl⟩ <;>
      first
        | rfl
        | (show (l.page_tree.modifyNode l.streamTarget _).system_area = _
           rw [Root.modifyNode_system_area])
  · intro ev hev
    cases ev <;> first | rfl | exact absurd rfl hev

/-- Witness for C3: the single-node layout with a recorded stream node. -/
theorem handle_assistant_event_spec_witness :
    (layStream.assistant_stream_node = some (NodeId.node 0) ∨
      (layStream.assistant_stream_node = none ∧ NodeId.node 0 = layStream.current_node)) ∧
    layStream.handle_assistant_event .messageStop =
      { layStream with assistant_stream_node := none } :=
  ⟨Or.inl rfl,
    (handle_assistant_event_spec layStream (NodeId.node 0) (Or.inl rfl)).2.2.2.2.2.2.1⟩


/-! ## C4: submission -/

theorem Root.modifyNode_get_projmap {β : Type} (r : Root) (j : NodeId) (f : Node → Node)
    (g : Node → β) (hf : ∀ n, g (f n) = g n) (m : NodeId) :
    ((r.modifyNode j f).get m).map g = (r.get m).map g := by
  rw [Root.get_modifyNode]
  by_cases h : j = m
  · rw [if_pos h]
    cases r.get m <;> simp [hf]
  · rw [if_neg h]

theorem Root.deactivatePrev_get_projmap {β : Type} (r : Root) (g : Node → β)
    (hg : ∀ n, g n.inactivate = g n) (m : NodeId) :
    (r.deactivatePrev.get m).map g = (r.get m).map g := by
  rw [Root.deactivatePrev_get]
  by_cases h : r.active = m
  · rw [if_pos h]
    cases r.get m <;> simp [hg]
  · rw [if_neg h]

theorem Root.activate_get_projmap {β : Type} (r : Root) (id : NodeId) (a : SessionAreaId)
    (g : Node → β) (hg1 : ∀ n, g n.inactivate = g n) (hg2 : ∀ n c, g (n.activate c) = g n)
    (m : NodeId) :
    ((r.activate id a).get m).map g = (r.get m).map g := by
  have hpre := Root.deactivatePrev_get_projmap r g hg1 m
  have hmod : ∀ (x : Root) (j : NodeId),
      ((x.modifyNode j fun n => n.activate SessionAreaId.assistant).get m).map g =
        (x.get m).map g :=
    fun x j => Root.modifyNode_get_projmap x j _ g (fun n => hg2 n _) m
  have hmodu : ∀ (x : Root) (j : NodeId),
      ((x.modifyNode j fun n => n.activate SessionAreaId.user).get m).map g =
        (x.get m).map g :=
    fun x j => Root.modifyNode_get_projmap x j _ g (fun n => hg2 n _) m
  unfold Root.activate
  cases a with
  | system =>
      dsimp only
      rw [Root.get_mk_fields]
      exact hpre
  | user =>
      dsimp only
      cases hg : r.deactivatePrev.get id with
      | none => dsimp only; exact hpre
      | some nd =>
          dsimp only
          rw [Root.get_mk_fields, hmodu]
          exact hpre
  | assistant =>
      dsimp only
      cases hg : r.deactivatePrev.get id with
      | none =>
          dsimp only
          cases hp : r.deactivatePrev.parent id with
          | none => dsimp only; exact hpre
          | some pn =>
              dsimp only
              cases hgp : r.deactivatePrev.get pn.id with
              | none => dsimp only; exact hpre
              | some pnn =>
                  dsimp only
                  rw [Root.get_mk_fields, hmod]
                  exact hpre
      | some nd =>
          dsimp only
          by_cases hemp : nd.assistant_area.is_empty = true
          · rw [hemp, if_pos rfl]
            cases hp : r.deactivatePrev.parent id with
            | none => dsimp only; exact hpre
            | some pn =>
                try dsimp only
                cases hgp : r.deactivatePrev.get pn.id with
                | none => dsimp only; exact hpre
                | some pnn =>
                    dsimp only
                    rw [Root.get_mk_fields, hmod]
                    exact hpre
          · rw [show nd.assistant_area.is_empty = false by simpa using hemp]
            simp only [Bool.false_eq_true, if_false]
            try dsimp only
            rw [Root.get_mk_fields, hmod]
            exact hpre

theorem Root.deactivatePrev_nodes_length (r : Root) :
    r.deactivatePrev.nodes.length = r.nodes.length := by
  unfold Root.deactivatePrev
  cases hact : r.get r.active <;> simp [Root.modifyNode_nodes_length]

theorem Root.activate_nodes_length (r : Root) (id : NodeId) (a : SessionAreaId) :
    (r.activate id a).nodes.length = r.nodes.length := by
  have hpre := Root.deactivatePrev_nodes_length r
  have hmod : ∀ (x : Root) (j : NodeId) (f : Node → Node),
      (x.modifyNode j f).nodes.length = x.nodes.length := Root.modifyNode_nodes_length
  unfold Root.activate
  cases a with
  | system => dsimp only; exact hpre
  | user =>
      dsimp only
      cases hg : r.deactivatePrev.get id with
      | none => dsimp only; exact hpre
      | some nd => dsimp only; rw [hmod]; exact hpre
  | assistant =>
      dsimp only
      cases hg : r.deactivatePrev.get id with
      | none =>
          dsimp only
          cases hp : r.deactivatePrev.parent id with
          | none => dsimp only; exact hpre
          | some pn =>
              dsimp only
              cases hgp : r.deactivatePrev.get pn.id with
              | none => dsimp only; exact hpre
              | some pnn => dsimp only; rw [hmod]; exact hpre
      | some nd =>
          dsimp only
          by_cases hemp : nd.assistant_area.is_empty = true
          · rw [hemp, if_pos rfl]
            cases hp : r.deactivatePrev.parent id with
            | none => dsimp only; exact hpre
            | some pn =>
                try dsimp only
                cases hgp : r.deactivatePrev.get pn.id with
                | none => dsimp only; exact hpre
                | some pnn => dsimp only; rw [hmod]; exact hpre
          · rw [show nd.assistant_area.is_empty = false by simpa using hemp]
            simp only [Bool.false_eq_true, if_false]
            try dsimp only
            rw [hmod]
            exact hpre

theorem insert_child_fst (r : Root) (p : NodeId) : (r.insert_child p).1 = r.next_id := by
  cases p <;> rfl

theorem insertChildT_nodes_length (r : Root) (p : NodeId) :
    (r.insertChildT p).nodes.length = r.nodes.length + 1 := by
  cases p <;> simp [Root.insertChildT, Root.insert_child, listModify_length]

theorem get_next_id_old_none (r : Root) (h : r.nodes.length < 65536) :
    r.get r.next_id = none := by
  simp only [Root.get, Root.next_id, Nat.mod_eq_of_lt h]
  exact List.getElem?_eq_none (le_refl _)

theorem insertChildT_get_new_parentmap (r : Root) (p : NodeId) (h : r.nodes.length < 65536) :
    ((r.insertChildT p).get r.next_id).map Node.parent = some p := by
  have hlen : r.nodes.length % 65536 = r.nodes.length := Nat.mod_eq_of_lt h
  cases p with
  | root =>
      simp [Root.insertChildT, Root.insert_child, Root.get, Root.next_id, hlen,
        List.getElem?_concat_length, Node.new]
  | node q =>
      simp only [Root.insertChildT, Root.insert_child, Root.get, Root.next_id, hlen]
      by_cases hq : q = r.nodes.length
      · subst hq
        rw [listModify_getElem?_self]
        simp [List.getElem?_concat_length, Node.new]
      · rw [listModify_getElem?_ne _ _ _ _ hq]
        simp [List.getElem?_concat_length, Node.new]

/-- C4 counterexample: submission performs no locking.  After submitting
from node n0, navigating back to n0 and typing `x` still mutates n0's
user buffer (its lines change from `["hello", ""]` to `["hello", "x"]`);
had the node been "marked locked" as the claim states (a locked buffer
rejects content-mutating input), the content would have been unchanged.
The session's buffer type has no lock at all. -/
theorem submit_does_not_lock :
    ((((lay0.submit).2.switch_node (NodeId.node 0)).page_tree.get (NodeId.node 0)).map
        fun n => n.user_area.text_area.lines) = some ["hello", ""] ∧
    (((((lay0.submit).2.switch_node (NodeId.node 0)).input (Input.char 'x')).page_tree.get
        (NodeId.node 0)).map fun n => n.user_area.text_area.lines) = some ["hello", "x"] := by
  exact ⟨by rfl, by rfl⟩
/-- C4 (amended): the submission arm linearizes the system message
followed by `collect_messages(current_node, None)` and hands that list to
the assistant facade, records the current node as
`assistant_stream_node`, then creates a fresh child of the current node
(its parent pointer is the submitted node, its id is `next_id`, the arena
grows by one) and switches the current node to it; no locking of any kind
is performed, and subsequent navigation (`up_one`, `down_one`,
`next_branch`, `previous_branch`, `switch_node`) never changes the
recorded stream node, so streamed events keep targeting the submitted
node independent of navigation. -/
theorem submit_spec (l : SessionLayout) :
    (l.submit).1 =
        messageFromArea l.page_tree.system_area ::
          l.page_tree.collect_messages l.current_node none ∧
    (l.submit).2.assistant_stream_node = some l.current_node ∧
    (l.submit).2.current_node = l.page_tree.next_id ∧
    (l.submit).2.page_tree.nodes.length = l.page_tree.nodes.length + 1 ∧
    (l.page_tree.nodes.length < 65536 →
        ((l.submit).2.page_tree.get l.page_tree.next_id).map Node.parent =
            some l.current_node ∧
        l.page_tree.get l.page_tree.next_id = none) ∧
    (∀ l' : SessionLayout,
        (l'.up_one).1.assistant_stream_node = l'.assistant_stream_node ∧
        (l'.down_one).1.assistant_stream_node = l'.assistant_stream_node ∧
        (l'.next_branch).1.assistant_stream_node = l'.assistant_stream_node ∧
        (l'.previous_branch).1.assistant_stream_node = l'.assistant_stream_node ∧
        ∀ m, (l'.switch_node m).assistant_stream_node = l'.assistant_stream_node) := by
  refine ⟨rfl, rfl, ?_, ?_, ?_, ?_⟩
  · show ((l.page_tree.insert_child l.current_node).1) = l.page_tree.next_id
    exact insert_child_fst _ _
  · show (Root.activate (l.page_tree.insert_child l.current_node).2
        (l.page_tree.insert_child l.current_node).1 l.active).nodes.length = _
    rw [Root.activate_nodes_length]
    exact insertChildT_nodes_length l.page_tree l.current_node
  · intro h
    constructor
    · show ((Root.activate (l.page_tree.insert_child l.current_node).2
          (l.page_tree.insert_child l.current_node).1 l.active).get
            l.page_tree.next_id).map Node.parent = some l.current_node
      rw [Root.activate_get_projmap _ _ _ Node.parent
        (fun n => Node.inactivate_parent n) (fun n c => Node.activate_parent n c)]
      exact insertChildT_get_new_parentmap l.page_tree l.current_node h
    · exact get_next_id_old_none l.page_tree h
  · intro l'
    refine ⟨?_, ?_, ?_, ?_, fun m => rfl⟩
    · unfold SessionLayout.up_one
      cases (l'.page_tree.childNodes l'.current_node).head? <;> rfl
    · unfold SessionLayout.down_one
      cases l'.page_tree.parent l'.current_node <;> rfl
    · unfold SessionLayout.next_branch
      cases l'.page_tree.next_sibling l'.current_node <;> rfl
    · unfold SessionLayout.previous_branch
      cases l'.page_tree.previous_sibling l'.current_node <;> rfl

/-- Witness for C4's amended theorem: the single-node layout. -/
theorem submit_spec_witness :
    lay0.page_tree.nodes.length < 65536 ∧
    ((lay0.submit).2.page_tree.get lay0.page_tree.next_id).map Node.parent =
        some lay0.current_node :=
  ⟨by decide, ((submit_spec lay0).2.2.2.2.1 (by decide)).1⟩


/-! ## C6 and C10: structural invariants and the u16 id wrap -/

theorem append_singleton_getElem? {α : Type} (l : List α) (x : α) (i : Nat) (m : α)
    (h : (l ++ [x])[i]? = some m) : l[i]? = some m ∨ (i = l.length ∧ m = x) := by
  by_cases hi : i < l.length
  · left
    rw [List.getElem?_append_left hi] at h
    exact h
  · right
    by_cases he : i = l.length
    · subst he
      rw [List.getElem?_concat_length] at h
      exact ⟨rfl, (Option.some.injEq _ _ ▸ h).symm⟩
    · exfalso
      have : l.length + 1 ≤ i := by omega
      rw [List.getElem?_eq_none (by simpa using this)] at h
      exact Option.noConfusion h

theorem insertChildT_nodes_getElem? (r : Root) (p : NodeId) (i : Nat) (n : Node)
    (hn : (r.insertChildT p).nodes[i]? = some n) :
    ∃ m, (r.nodes ++ [Node.new r.next_id p ((r.height p + 1) % 65536)])[i]? = some m ∧
      n.id = m.id ∧ n.parent = m.parent ∧ n.height = m.height ∧
      (n.children = m.children ∨ n.children = m.children ++ [r.next_id]) := by
  cases p with
  | root =>
      refine ⟨n, ?_, rfl, rfl, rfl, Or.inl rfl⟩
      simpa [Root.insertChildT, Root.insert_child] using hn
  | node q =>
      simp only [Root.insertChildT, Root.insert_child] at hn
      by_cases hq : q = i
      · subst hq
        rw [listModify_getElem?_self] at hn
        cases hg : (r.nodes ++ [Node.new r.next_id (NodeId.node q) ((r.height (NodeId.node q) + 1) % 65536)])[q]? with
        | none => rw [hg] at hn; exact Option.noConfusion hn
        | some m =>
            rw [hg] at hn
            simp only [Option.map_some', Option.some.injEq] at hn
            exact ⟨m, rfl, by rw [← hn], by rw [← hn], by rw [← hn], Or.inr (by rw [← hn])⟩
      · rw [listModify_getElem?_ne _ _ _ _ hq] at hn
        exact ⟨n, hn, rfl, rfl, rfl, Or.inl rfl⟩

theorem insertChildT_height_old (r : Root) (p : NodeId) (j : Nat)
    (hj : j < r.nodes.length) :
    (r.insertChildT p).height (NodeId.node j) = r.height (NodeId.node j) := by
  cases hg : r.nodes[j]? with
  | none =>
      exact absurd hg (by simp [List.getElem?_eq_some]; omega)
  | some m =>
      have hg' : (r.insertChildT p).nodes[j]? = some (match p with
          | NodeId.node q => if q = j then
              { m with children := m.children ++ [r.next_id] } else m
          | NodeId.root => m) := by
        cases p with
        | root =>
            simp only [Root.insertChildT, Root.insert_child]
            rw [List.getElem?_append_left hj]
            exact hg
        | node q =>
            simp only [Root.insertChildT, Root.insert_child]
            by_cases hq : q = j
            · subst hq
              rw [listModify_getElem?_self, List.getElem?_append_left hj, hg]
              simp
            · rw [listModify_getElem?_ne _ _ _ _ hq, List.getElem?_append_left hj, hg]
              simp [hq]
      show ((r.insertChildT p).nodes[j]?.map Node.height).getD 0 =
        (r.nodes[j]?.map Node.height).getD 0
      rw [hg, hg']
      cases p with
      | root => rfl
      | node q => by_cases hq : q = j <;> simp [hq]

theorem insertChildT_height_oldId (r : Root) (p : NodeId) (id : NodeId)
    (hid : id = NodeId.root ∨ ∃ j, id = NodeId.node j ∧ j < r.nodes.length) :
    (r.insertChildT p).height id = r.height id := by
  rcases hid with h | ⟨j, rfl, hj⟩
  · subst h; rfl
  · exact insertChildT_height_old r p j hj



theorem applyInserts_cons (p : NodeId) (ps : List NodeId) (r : Root) :
    applyInserts (p :: ps) r = applyInserts ps (r.insertChildT p) := rfl

theorem applyInserts_concat (ps : List NodeId) (p : NodeId) (r : Root) :
    applyInserts (ps ++ [p]) r = (applyInserts ps r).insertChildT p := by
  simp [applyInserts, List.foldl_append]

theorem applyInserts_length (ps : List NodeId) (r : Root) :
    (applyInserts ps r).nodes.length = r.nodes.length + ps.length := by
  induction ps generalizing r with
  | nil => rfl
  | cons p ps ih =>
      rw [applyInserts_cons, ih, insertChildT_nodes_length]
      simp only [List.length_cons]
      omega

theorem idModOk_insert (r : Root) (p : NodeId) (h : IdModOk r) :
    IdModOk (r.insertChildT p) := by
  intro i n hn
  obtain ⟨m, hm, hid, -, -, -⟩ := insertChildT_nodes_getElem? r p i n hn
  rcases append_singleton_getElem? _ _ _ _ hm with hold | ⟨hi, hmx⟩
  · rw [hid]
    exact h i m hold
  · rw [hid, hmx, hi]
    rfl

theorem idModOk_applyInserts (ps : List NodeId) :
    IdModOk (applyInserts ps Root.new) := by
  have hstep : ∀ (ps' : List NodeId) (r : Root), IdModOk r → IdModOk (applyInserts ps' r) := by
    intro ps'
    induction ps' with
    | nil => exact fun r h => h
    | cons p ps' ih => exact fun r h => ih _ (idModOk_insert r p h)
  refine hstep ps Root.new ?_
  intro i n hn
  simp [Root.new] at hn

theorem count_flatMap_children_modify (l : List Node) (q : Nat) (idv : NodeId)
    (hq : q < l.length) (x : NodeId) :
    ((listModify l q (fun m => { m with children := m.children ++ [idv] })).flatMap
        Node.children).count x =
      (l.flatMap Node.children).count x + ([idv].count x) := by
  induction l generalizing q with
  | nil => simp at hq
  | cons y ys ih =>
      cases q with
      | zero =>
          simp only [listModify, List.flatMap_cons, List.count_append]
          omega
      | succ q' =>
          have hq' : q' < ys.length := by simpa using hq
          simp only [listModify, List.flatMap_cons, List.count_append, ih q' hq']
          omega

theorem count_allChildren_insert (r : Root) (p : NodeId) (hp : parentOkB r p = true)
    (x : NodeId) :
    (allChildren (r.insertChildT p)).count x =
      (allChildren r).count x + ([r.next_id].count x) := by
  cases p with
  | root =>
      show ((r.children ++ [r.next_id]) ++
        (r.nodes ++ [Node.new r.next_id .root ((r.height .root + 1) % 65536)]).flatMap
          Node.children).count x = _
      rw [List.flatMap_append]
      simp only [allChildren, List.count_append, List.flatMap_cons, List.flatMap_nil]
      have : (Node.new r.next_id .root ((r.height .root + 1) % 65536)).children = [] := rfl
      rw [this]
      simp only [List.count_nil]
      omega
  | node q =>
      have hq : q < r.nodes.length := by simpa [parentOkB] using hp
      show (r.children ++
        (listModify (r.nodes ++ [Node.new r.next_id (NodeId.node q) ((r.height (NodeId.node q) + 1) % 65536)]) q
          (fun m => { m with children := m.children ++ [r.next_id] })).flatMap Node.children).count x = _
      rw [List.count_append,
        count_flatMap_children_modify _ q _ (by simp; omega) x]
      rw [List.flatMap_append]
      simp only [allChildren, List.count_append, List.flatMap_cons, List.flatMap_nil]
      have : (Node.new r.next_id (NodeId.node q) ((r.height (NodeId.node q) + 1) % 65536)).children = [] := rfl
      rw [this]
      simp only [List.count_nil, List.count_append]
      omega



theorem height_le_of_inv (r : Root) (hInv : TreeInv r) (p : NodeId)
    (hp : parentOkB r p = true) : r.height p ≤ r.nodes.length := by
  cases p with
  | root => exact Nat.zero_le _
  | node q =>
      have hq : q < r.nodes.length := by simpa [parentOkB] using hp
      cases hg : r.nodes[q]? with
      | none =>
          exfalso
          rw [List.getElem?_eq_none_iff] at hg
          omega
      | some m =>
          have := hInv.heightLe q m hg
          show ((r.nodes[q]?).map Node.height).getD 0 ≤ _
          rw [hg]
          simpa using (by omega : m.height ≤ r.nodes.length)

theorem treeInv_insert (r : Root) (p : NodeId) (hInv : TreeInv r)
    (hp : parentOkB r p = true) (hlen : r.nodes.length ≤ 65534) :
    TreeInv (r.insertChildT p) := by
  have hnext : r.next_id = NodeId.node r.nodes.length := by
    simp [Root.next_id, Nat.mod_eq_of_lt (by omega : r.nodes.length < 65536)]
  have hhp : r.height p ≤ r.nodes.length := height_le_of_inv r hInv p hp
  have hNh : (r.height p + 1) % 65536 = r.height p + 1 :=
    Nat.mod_eq_of_lt (by omega)
  have hpold : p = NodeId.root ∨ ∃ j, p = NodeId.node j ∧ j < r.nodes.length := by
    cases p with
    | root => exact Or.inl rfl
    | node q => exact Or.inr ⟨q, rfl, by simpa [parentOkB] using hp⟩
  have hlen' : (r.insertChildT p).nodes.length = r.nodes.length + 1 :=
    insertChildT_nodes_length r p
  have hcount := count_allChildren_insert r p hp
  refine ⟨?_, ?_, ?_, ?_, ?_, ?_⟩
  · -- idOk
    intro i n hn
    obtain ⟨m, hm, hid, -, -, -⟩ := insertChildT_nodes_getElem? r p i n hn
    rcases append_singleton_getElem? _ _ _ _ hm with hold | ⟨hi, hmx⟩
    · rw [hid]
      exact hInv.idOk i m hold
    · rw [hid, hmx, hi, ← hi]
      show (Node.new r.next_id p ((r.height p + 1) % 65536)).id = _
      rw [show (Node.new r.next_id p ((r.height p + 1) % 65536)).id = r.next_id from rfl,
        hnext, hi]
  · -- parentLt
    intro i n hn
    obtain ⟨m, hm, -, hpar, -, -⟩ := insertChildT_nodes_getElem? r p i n hn
    rcases append_singleton_getElem? _ _ _ _ hm with hold | ⟨hi, hmx⟩
    · rw [hpar]
      exact hInv.parentLt i m hold
    · rw [hpar, hmx]
      show p = NodeId.root ∨ _
      rcases hpold with h | ⟨j, rfl, hj⟩
      · exact Or.inl h
      · exact Or.inr ⟨j, rfl, by omega⟩
  · -- heightOk
    intro i n hn
    obtain ⟨m, hm, -, hpar, hh, -⟩ := insertChildT_nodes_getElem? r p i n hn
    rcases append_singleton_getElem? _ _ _ _ hm with hold | ⟨hi, hmx⟩
    · have hi' : i < r.nodes.length := by
        by_contra hc
        rw [List.getElem?_eq_none_iff.mpr (by omega)] at hold
        exact Option.noConfusion hold
      have hold2 := hInv.heightOk i m hold
      have hpv : m.parent = NodeId.root ∨
          ∃ pj, m.parent = NodeId.node pj ∧ pj < r.nodes.length := by
        rcases hInv.parentLt i m hold with h | ⟨pj, hpj, hlt⟩
        · exact Or.inl h
        · exact Or.inr ⟨pj, hpj, by omega⟩
      rw [hh, hpar, insertChildT_height_oldId r p m.parent hpv]
      exact hold2
    · rw [hh, hpar, hmx]
      show (Node.new r.next_id p ((r.height p + 1) % 65536)).height =
        (r.insertChildT p).height (Node.new r.next_id p ((r.height p + 1) % 65536)).parent + 1
      rw [show (Node.new r.next_id p ((r.height p + 1) % 65536)).height =
        (r.height p + 1) % 65536 from rfl]
      rw [show (Node.new r.next_id p ((r.height p + 1) % 65536)).parent = p from rfl]
      rw [hNh, insertChildT_height_oldId r p p hpold]
  · -- heightLe
    intro i n hn
    obtain ⟨m, hm, -, -, hh, -⟩ := insertChildT_nodes_getElem? r p i n hn
    rcases append_singleton_getElem? _ _ _ _ hm with hold | ⟨hi, hmx⟩
    · rw [hh]
      exact hInv.heightLe i m hold
    · rw [hh, hmx]
      show (Node.new r.next_id p ((r.height p + 1) % 65536)).height ≤ i + 1
      rw [show (Node.new r.next_id p ((r.height p + 1) % 65536)).height =
        (r.height p + 1) % 65536 from rfl, hNh]
      omega
  · -- childOk
    intro x hx
    have hpos : 0 < (allChildren (r.insertChildT p)).count x :=
      List.count_pos_iff.mpr hx
    rw [hcount] at hpos
    by_cases hxe : x = r.next_id
    · exact ⟨r.nodes.length, by rw [hxe, hnext], by omega⟩
    · have : 0 < (allChildren r).count x := by
        have : ([r.next_id].count x) = 0 := by
          simp [List.count_singleton]
          exact fun h => hxe h.symm
        omega
      obtain ⟨j, hxj, hj⟩ := hInv.childOk x (List.count_pos_iff.mp this)
      exact ⟨j, hxj, by omega⟩
  · -- countOk
    intro j hj
    rw [hlen'] at hj
    rw [hcount]
    by_cases hje : j = r.nodes.length
    · have hzero : (allChildren r).count (NodeId.node j) = 0 := by
        rw [List.count_eq_zero]
        intro hmem
        obtain ⟨k, hk, hklt⟩ := hInv.childOk _ hmem
        have hjk := NodeId.node.inj hk
        omega
      rw [hzero, hnext, hje]
      simp
    · have hj' : j < r.nodes.length := by omega
      rw [hInv.countOk j hj', hnext]
      have : ([NodeId.node r.nodes.length].count (NodeId.node j)) = 0 := by
        simp [List.count_singleton]
        omega
      rw [this]



theorem treeInv_new : TreeInv Root.new := by
  refine ⟨?_, ?_, ?_, ?_, ?_, ?_⟩
  · intro i n hn; simp [Root.new] at hn
  · intro i n hn; simp [Root.new] at hn
  · intro i n hn; simp [Root.new] at hn
  · intro i n hn; simp [Root.new] at hn
  · intro x hx; simp [Root.new, allChildren] at hx
  · intro j hj; simp [Root.new] at hj

theorem treeInv_applyInserts (ps : List NodeId) :
    ∀ (r : Root), TreeInv r → validSeq r ps = true →
      r.nodes.length + ps.length ≤ 65535 → TreeInv (applyInserts ps r) := by
  induction ps with
  | nil => exact fun r h _ _ => h
  | cons p ps ih =>
      intro r hInv hval hlen
      rw [validSeq, Bool.and_eq_true] at hval
      rw [applyInserts_cons]
      refine ih _ (treeInv_insert r p hInv hval.1 (by simp at hlen; omega)) hval.2 ?_
      rw [insertChildT_nodes_length]
      simp at hlen ⊢
      omega

/-- C6 (amended): after every sequence of `insert_child` calls that keeps
the arena within the `u16` id space (at most 65535 nodes), every node's
height equals its parent's height + 1 (Root's height being 0), every
`NodeId` referenced in any children list is a valid arena index, and
every node id appears in exactly one parent's children list (exactly once
overall, the top-level list counting as Root's).  Beyond 2^16 nodes the
`as u16` id cast wraps and uniqueness fails (see the counterexample). -/
theorem insert_child_invariants (ps : List NodeId)
    (hval : validSeq Root.new ps = true) (hlen : ps.length ≤ 65535) :
    heightsConsistent (applyInserts ps Root.new) ∧
      childrenIndicesValid (applyInserts ps Root.new) ∧
      childrenUnique (applyInserts ps Root.new) := by
  have hInv := treeInv_applyInserts ps Root.new treeInv_new hval
    (by simp [Root.new]; omega)
  exact ⟨hInv.heightOk, hInv.childOk, hInv.countOk⟩

/-- Witness for C6's amended theorem: a root child, then two children of
node 0. -/
theorem insert_child_invariants_witness :
    validSeq Root.new [NodeId.root, NodeId.node 0, NodeId.node 0] = true ∧
      ([NodeId.root, NodeId.node 0, NodeId.node 0].length ≤ 65535) ∧
      childrenUnique (applyInserts [NodeId.root, NodeId.node 0, NodeId.node 0] Root.new) :=
  ⟨by decide, by decide,
    (insert_child_invariants [NodeId.root, NodeId.node 0, NodeId.node 0]
      (by decide) (by decide)).2.2⟩



theorem insertChildT_root_children (r : Root) :
    (r.insertChildT .root).children = r.children ++ [r.next_id] := rfl

theorem rootSeq_children (n : Nat) :
    (applyInserts (List.replicate n NodeId.root) Root.new).children =
      (List.range n).map (fun i => NodeId.node (i % 65536)) := by
  induction n with
  | zero => rfl
  | succ n ih =>
      rw [List.replicate_succ', applyInserts_concat, insertChildT_root_children, ih]
      have hlen : (applyInserts (List.replicate n NodeId.root) Root.new).nodes.length = n := by
        rw [applyInserts_length]
        simp [Root.new]
      rw [List.range_succ, List.map_append]
      simp [Root.next_id, hlen]

/-- C6 counterexample: after 65537 `insert_child(Root)` calls on a fresh
tree, the `as u16` cast wraps and the id `Node(0)` appears twice in
Root's top-level children list, so "every node id appears in exactly one
parent's children list" fails for the (valid) arena index 0. -/
theorem insert_child_id_reused :
    ¬ childrenUnique (applyInserts (List.replicate 65537 NodeId.root) Root.new) := by
  intro h
  have hlen : (applyInserts (List.replicate 65537 NodeId.root) Root.new).nodes.length = 65537 := by
    rw [applyInserts_length, List.length_replicate]
    rfl
  have h0 := h 0 (by rw [hlen]; omega)
  have hch := rootSeq_children 65537
  have hsplit : (List.range 65537).map (fun i => NodeId.node (i % 65536)) =
      ((List.range 65536).map (fun i => NodeId.node (i % 65536))) ++ [NodeId.node 0] := by
    rw [show (65537 : Nat) = 65536 + 1 from rfl, List.range_succ, List.map_append]
    norm_num
  have hmem : NodeId.node 0 ∈ (List.range 65536).map (fun i => NodeId.node (i % 65536)) := by
    refine List.mem_map.mpr ⟨0, ?_, rfl⟩
    exact List.mem_range.mpr (by omega)
  have hcount2 : 2 ≤ (allChildren (applyInserts (List.replicate 65537 NodeId.root) Root.new)).count
      (NodeId.node 0) := by
    unfold allChildren
    rw [List.count_append, hch, hsplit, List.count_append]
    have h1 : 1 ≤ ((List.range 65536).map (fun i => NodeId.node (i % 65536))).count
        (NodeId.node 0) := List.count_pos_iff.mpr hmem
    have h2 : ([NodeId.node 0].count (NodeId.node 0)) = 1 := by simp
    omega
  omega



/-- C10: `next_id` is the arena length cast to `u16`, so ids are assigned
modulo 2^16; node index `i` always carries id `i % 65536`
(for every `insert_child` sequence), and once a tree built by
`insert_child` holds 65536 or more nodes, the id returned by the next
`insert_child` (under any parent) equals the id of an already-stored
node — the append-only never-reused guarantee holds only below 2^16
nodes. -/
theorem next_id_collision (ps : List NodeId) (p : NodeId)
    (h : 65536 ≤ (applyInserts ps Root.new).nodes.length) :
    ∃ i n, i < (applyInserts ps Root.new).nodes.length ∧
      (applyInserts ps Root.new).nodes[i]? = some n ∧
      n.id = ((applyInserts ps Root.new).insert_child p).1 := by
  have hmod := idModOk_applyInserts ps
  have hpos : 0 < (applyInserts ps Root.new).nodes.length := by omega
  have hi : (applyInserts ps Root.new).nodes.length % 65536 <
      (applyInserts ps Root.new).nodes.length := by
    have := Nat.mod_lt (applyInserts ps Root.new).nodes.length
      (y := 65536) (by omega)
    omega
  obtain ⟨n, hn⟩ : ∃ n, (applyInserts ps Root.new).nodes[(applyInserts ps Root.new).nodes.length % 65536]? = some n := by
    rw [List.getElem?_eq_getElem hi]
    exact ⟨_, rfl⟩
  refine ⟨(applyInserts ps Root.new).nodes.length % 65536, n, hi, hn, ?_⟩
  rw [insert_child_fst, hmod _ _ hn]
  show NodeId.node ((applyInserts ps Root.new).nodes.length % 65536 % 65536) = _
  rw [Nat.mod_eq_of_lt (Nat.mod_lt _ (by omega))]
  rfl

/-- Witness for C10: exactly 65536 root-level inserts. -/
theorem next_id_collision_witness :
    65536 ≤ (applyInserts (List.replicate 65536 NodeId.root) Root.new).nodes.length ∧
      ∃ i n, i < (applyInserts (List.replicate 65536 NodeId.root) Root.new).nodes.length ∧
        (applyInserts (List.replicate 65536 NodeId.root) Root.new).nodes[i]? = some n ∧
        n.id = ((applyInserts (List.replicate 65536 NodeId.root) Root.new).insert_child
          NodeId.root).1 := by
  have hlen : (applyInserts (List.replicate 65536 NodeId.root) Root.new).nodes.length = 65536 := by
    rw [applyInserts_length, List.length_replicate]
    rfl
  exact ⟨by rw [hlen], next_id_collision (List.replicate 65536 NodeId.root) NodeId.root
    (by rw [hlen])⟩

end Rgpt
